import Mathlib

/-!
# Verification of the LATAM flight-delay pipeline

Shallow embedding of the feature-engineering / schema-alignment core of the
repository (`challenge/model.py` and `challenge/api/api.py`), together with
theorems settling the specification claims about it.

Conventions of the embedding:
* pandas `DataFrame`s are modelled as a `Frame`: an ordered list of column
  names plus a list of rows, each row an ordered list of integer cell values
  aligned positionally with the column list;
* timestamps are modelled by `DateTimeT`; `parseDateTime` models CPython's
  `datetime.strptime(s, "%Y-%m-%d %H:%M:%S")`, returning `none` where the
  Python call raises;
* the XGBoost classifier is opaque (per the spec it is an external
  capability), so it is passed around as a function argument;
* fallible Python code (raised exceptions) is modelled with `Option`/`Except`.
-/

/-- A naive local timestamp, as produced by `datetime.strptime`. -/
structure DateTimeT where
  year : Nat
  month : Nat
  day : Nat
  hour : Nat
  minute : Nat
  second : Nat
deriving DecidableEq, Repr

/-- Numeric value of a decimal digit character, `none` for non-digits. -/
def digitVal (c : Char) : Option Nat :=
  if c.isDigit then some (c.toNat - 48) else none

/-- Gregorian leap-year test (as used by Python's `datetime`). -/
def isLeap (y : Nat) : Bool :=
  y % 4 == 0 && (y % 100 != 0 || y % 400 == 0)

/-- Days in a month of a given year (as validated by Python's `datetime`). -/
def daysInMonth (y m : Nat) : Nat :=
  if m = 2 then (if isLeap y then 29 else 28)
  else if m = 4 ∨ m = 6 ∨ m = 9 ∨ m = 11 then 30 else 31

/--
Parse a one- or two-digit numeric field whose value must lie in `[lo, hi]`,
mirroring CPython `_strptime`'s regexes for `%m`/`%d`/`%H`/`%M`/`%S`
(e.g. `1[0-2]|0[1-9]|[1-9]` for `%m`): a two-character match is taken when its
value is in range, otherwise a single-character match is taken when in range.
-/
def parseField (lo hi : Nat) : List Char → Option (Nat × List Char)
  | c1 :: c2 :: rest =>
    match digitVal c1, digitVal c2 with
    | some v1, some v2 =>
      if lo ≤ 10 * v1 + v2 ∧ 10 * v1 + v2 ≤ hi then some (10 * v1 + v2, rest)
      else if lo ≤ v1 ∧ v1 ≤ hi then some (v1, c2 :: rest)
      else none
    | some v1, none =>
      if lo ≤ v1 ∧ v1 ≤ hi then some (v1, c2 :: rest) else none
    | none, _ => none
  | [c1] =>
    match digitVal c1 with
    | some v1 => if lo ≤ v1 ∧ v1 ≤ hi then some (v1, []) else none
    | none => none
  | [] => none

/-- Parse exactly four digits, mirroring `%Y`'s regex `\d\d\d\d`. -/
def parseYear : List Char → Option (Nat × List Char)
  | c1 :: c2 :: c3 :: c4 :: rest => do
    let v1 ← digitVal c1
    let v2 ← digitVal c2
    let v3 ← digitVal c3
    let v4 ← digitVal c4
    some (1000 * v1 + 100 * v2 + 10 * v3 + v4, rest)
  | _ => none

/-- Consume one expected literal character. -/
def expectChar (c : Char) : List Char → Option (List Char)
  | c0 :: rest => if c0 = c then some rest else none
  | [] => none

/--
Model of `datetime.strptime(s, "%Y-%m-%d %H:%M:%S")`: `none` exactly where the
Python call raises (`ValueError` from the format regex or from `datetime`'s
field validation, which additionally requires `year ≥ 1` and a day valid for
the month).
-/
def parseDateTime (s : String) : Option DateTimeT := do
  let cs := s.toList
  let (y, cs) ← parseYear cs
  let cs ← expectChar '-' cs
  let (mo, cs) ← parseField 1 12 cs
  let cs ← expectChar '-' cs
  let (d, cs) ← parseField 1 31 cs
  let cs ← expectChar ' ' cs
  let (h, cs) ← parseField 0 23 cs
  let cs ← expectChar ':' cs
  let (mi, cs) ← parseField 0 59 cs
  let cs ← expectChar ':' cs
  let (sec, cs) ← parseField 0 59 cs
  if cs.isEmpty ∧ 1 ≤ y ∧ d ≤ daysInMonth y mo then
    some ⟨y, mo, d, h, mi, sec⟩
  else
    none

/-- Leap years in `[1, y]`. -/
def leapCount (y : Nat) : Nat := y / 4 - y / 100 + y / 400

/-- Days in the months of year `y` strictly before month `m`. -/
def cumDays (y m : Nat) : Nat :=
  (List.range (m - 1)).foldl (fun a i => a + daysInMonth y (i + 1)) 0

/-- Day index of a date (day 0 = January 1 of year 1). -/
def dayNumber (dt : DateTimeT) : Nat :=
  365 * (dt.year - 1) + leapCount (dt.year - 1) + cumDays dt.year dt.month + (dt.day - 1)

/-- Seconds since the epoch `0001-01-01 00:00:00`; differences of this model
`(a - b).total_seconds()` for Python datetimes. -/
def toSecs (dt : DateTimeT) : Int :=
  (((dayNumber dt : Int) * 24 + dt.hour) * 3600) + dt.minute * 60 + dt.second

/-- Lexicographic key of the six fields. For field values in their calendar
ranges this orders exactly like Python's lexicographic `datetime` comparison. -/
def fieldsKey (dt : DateTimeT) : Nat :=
  ((((dt.year * 13 + dt.month) * 32 + dt.day) * 24 + dt.hour) * 60 + dt.minute) * 60 + dt.second

/-- Model of Python `datetime` comparison `a <= b` (for in-range fields). -/
def dtLe (a b : DateTimeT) : Bool := fieldsKey a ≤ fieldsKey b

/-- Lexicographic key of the time-of-day fields; models Python `time`
comparison the same way `fieldsKey` models `datetime` comparison. -/
def timeKey (dt : DateTimeT) : Nat :=
  (dt.hour * 60 + dt.minute) * 60 + dt.second

/--
`get_period_day` (model.py lines 47-59): time-of-day bucket of the scheduled
timestamp; `"noche"` when parsing fails.  The bounds are the parsed times
`05:00:00`, `11:59:00`, `12:00:00`, `18:59:00`, compared inclusively.
-/
def get_period_day (date : String) : String :=
  match parseDateTime date with
  | none => "noche"
  | some dt =>
    if timeKey ⟨0, 0, 0, 5, 0, 0⟩ ≤ timeKey dt ∧ timeKey dt ≤ timeKey ⟨0, 0, 0, 11, 59, 0⟩ then
      "mañana"
    else if timeKey ⟨0, 0, 0, 12, 0, 0⟩ ≤ timeKey dt ∧ timeKey dt ≤ timeKey ⟨0, 0, 0, 18, 59, 0⟩ then
      "tarde"
    else
      "noche"

/-- The four high-season windows `(startMonth, startDay, endMonth, endDay)`
of model.py lines 69-74, anchored to the record's own year. -/
def highSeasonRanges : List ((Nat × Nat) × (Nat × Nat)) :=
  [((12, 15), (12, 31)), ((1, 1), (3, 3)), ((7, 15), (7, 31)), ((9, 11), (9, 30))]

/--
`is_high_season` (model.py lines 61-80): 1 when the parsed timestamp lies in
one of four fixed day-month windows of its own year (window bounds carry time
`00:00:00`, and the comparison is on full timestamps); 0 when parsing fails.
-/
def is_high_season (fecha : String) : Nat :=
  match parseDateTime fecha with
  | none => 0
  | some dt =>
    if highSeasonRanges.any (fun r =>
        dtLe ⟨dt.year, r.1.1, r.1.2, 0, 0, 0⟩ dt && dtLe dt ⟨dt.year, r.2.1, r.2.2, 0, 0, 0⟩) then
      1
    else
      0

/--
`get_min_diff` (model.py lines 82-89): `(Fecha-O − Fecha-I)` in minutes as an
exact rational (Python computes `total_seconds()/60`; scheduling timestamps
have integral seconds so the comparison against 15 downstream agrees); 0 when
parsing of either field fails.
-/
def get_min_diff (fechaO fechaI : String) : Rat :=
  match parseDateTime fechaO, parseDateTime fechaI with
  | some fo, some fi => ((toSecs fo - toSecs fi : Int) : Rat) / 60
  | _, _ => 0

/-!
## DataFrames, one-hot encoding and schema alignment
-/

/-- A pandas `DataFrame` of integer cells: ordered column names plus rows,
each row a list of values aligned positionally with `cols`. -/
structure Frame where
  cols : List String
  rows : List (List Int)
deriving DecidableEq, Repr

/-- A rectangular frame: every row has one value per column. -/
def FrameWF (f : Frame) : Prop := ∀ r ∈ f.rows, r.length = f.cols.length

instance : DecidablePred FrameWF := fun f =>
  inferInstanceAs (Decidable (∀ r ∈ f.rows, r.length = f.cols.length))

/-- Value of column `c` in a row of a frame with columns `cols`: the cell
aligned with the first occurrence of `c`, 0 when the column is absent
(the `fill_value` of `reindex`). -/
def cellAt (cols : List String) (row : List Int) (c : String) : Int :=
  match cols, row with
  | c0 :: cols, v :: row => if c0 = c then v else cellAt cols row c
  | _, _ => 0

/--
The in-place loop `for col in schema: if col not in df.columns: df[col] = 0`
(model.py lines 169-171, api.py lines 254-256): each schema column absent from
the frame is appended, zero-filled for every row.
-/
def addMissingCols (f : Frame) (schema : List String) : Frame :=
  schema.foldl
    (fun acc c =>
      if c ∈ acc.cols then acc
      else ⟨acc.cols ++ [c], acc.rows.map (· ++ [0])⟩)
    f

/-- The columns `addMissingCols` appends, in order. -/
def newCols (cols : List String) : List String → List String
  | [] => []
  | c :: s => if c ∈ cols then newCols cols s else c :: newCols (cols ++ [c]) s

/--
`df.reindex(columns=schema, fill_value=0)` (api.py line 258), and also the
column selection `features[schema]` of model.py line 172 (there every schema
column is present after the preceding loop, so selection and reindex agree).
-/
def reindexTo (f : Frame) (schema : List String) : Frame :=
  ⟨schema, f.rows.map (fun row => schema.map (cellAt f.cols row))⟩

/-- The whole schema-alignment step used by both call sites:
append missing schema columns zero-filled, then reindex to the schema. -/
def buildAligned (f : Frame) (schema : List String) : Frame :=
  reindexTo (addMissingCols f schema) schema

/-- The three categorical fields every encoded record carries
(`OPERA`, `TIPOVUELO`, `MES`). -/
structure CatRow where
  opera : String
  tipovuelo : String
  mes : Int
deriving DecidableEq, Repr

/-- Python/pandas string comparison: lexicographic on code points, a strict
prefix comparing below its extensions. -/
def charListLe : List Char → List Char → Bool
  | [], _ => true
  | _ :: _, [] => false
  | a :: as, b :: bs =>
    if a.toNat < b.toNat then true
    else if b.toNat < a.toNat then false
    else charListLe as bs

/-- `a <= b` for Python strings. -/
def strLe (a b : String) : Bool := charListLe a.data b.data

/-- Distinct observed string values in pandas sort order (lexicographic). -/
def uniqueSortedStrings (xs : List String) : List String :=
  List.insertionSort (fun a b => strLe a b = true) xs.dedup

/-- Distinct observed integer values in pandas sort order (numeric). -/
def uniqueSortedInts (xs : List Int) : List Int :=
  List.insertionSort (· ≤ ·) xs.dedup

/-- Indicator-column name for an `OPERA` value. -/
def operaName (v : String) : String := "OPERA_" ++ v

/-- Indicator-column name for a `TIPOVUELO` value. -/
def tipoName (v : String) : String := "TIPOVUELO_" ++ v

/-- Indicator-column name for a `MES` value (pandas renders the int). -/
def mesName (v : Int) : String := "MES_" ++ toString v

/-- One-hot row of `r` against the observed value lists of its batch. -/
def encodeRow (operas tipos : List String) (meses : List Int) (r : CatRow) : List Int :=
  operas.map (fun v => if r.opera = v then 1 else 0)
    ++ tipos.map (fun v => if r.tipovuelo = v then 1 else 0)
    ++ meses.map (fun v => if r.mes = v then 1 else 0)

/--
`pd.get_dummies` over the three categorical columns: one indicator column per
distinct value observed in the batch, named `<column>_<value>`, values sorted
ascending within each source column, blocks concatenated in the fixed order
`[OPERA, TIPOVUELO, MES]`.  This models both model.py lines 104-108 (three
`get_dummies` calls concatenated) and api.py lines 248-252
(`get_dummies(df, columns=[...], prefix=[...])`), which produce the same frame.
-/
def encodeCat (rows : List CatRow) : Frame :=
  let operas := uniqueSortedStrings (rows.map (·.opera))
  let tipos := uniqueSortedStrings (rows.map (·.tipovuelo))
  let meses := uniqueSortedInts (rows.map (·.mes))
  { cols := operas.map operaName ++ tipos.map tipoName ++ meses.map mesName,
    rows := rows.map (encodeRow operas tipos meses) }

/-!
## DelayModel (challenge/model.py)
-/

/-- A raw flight record as read by `DelayModel.preprocess`. -/
structure RawRow where
  fechaI : String
  fechaO : String
  opera : String
  tipovuelo : String
  mes : Int
deriving DecidableEq, Repr

/-- The categorical fields of a raw record. -/
def RawRow.toCat (r : RawRow) : CatRow := ⟨r.opera, r.tipovuelo, r.mes⟩

/-- The raw training/inference data handed to `preprocess`: its records, plus
the `delay` column when the data already carries one. -/
structure PreFrame where
  rows : List RawRow
  delayCol : Option (List Int)
deriving DecidableEq, Repr

/-- The class state of `DelayModel`: the fitted classifier (opaque — modelled
as a matrix-to-predictions function) and the stored feature columns. -/
structure DelayModel where
  _model : Option (List (List Int) → List Int)
  _feature_columns : Option (List String)

/-- The threshold rule of model.py line 101:
`delay = np.where(min_diff > 15, 1, 0)`. -/
def deriveDelay (minDiff : Rat) : Int := if 15 < minDiff then 1 else 0

/-- The `min_diff` column computed by `preprocess`. -/
def minDiffCol (data : PreFrame) : List Rat :=
  data.rows.map (fun r => get_min_diff r.fechaO r.fechaI)

/-- The `delay` column after model.py lines 100-101: reused unchanged when the
data already carries one, otherwise derived from `min_diff`. -/
def delayColumn (data : PreFrame) : List Int :=
  match data.delayCol with
  | some d => d
  | none => (minDiffCol data).map deriveDelay

/--
`DelayModel.preprocess` (model.py lines 30-119).  Returns the updated model
state (line 111 stores the freshly encoded column list in
`self._feature_columns` on **every** call), the one-hot feature frame, and —
when a target column is requested — the `delay` column.  The engineered
columns `period_day` / `high_season` / `min_diff` are appended to the working
copy of the data but only `min_diff` is consumed (by the `delay` derivation);
features use only `OPERA` / `TIPOVUELO` / `MES`.
-/
def DelayModel.preprocess (m : DelayModel) (data : PreFrame) (withTarget : Bool) :
    DelayModel × Frame × Option (List Int) :=
  let features := encodeCat (data.rows.map RawRow.toCat)
  let m2 : DelayModel := { m with _feature_columns := some features.cols }
  (m2, features, if withTarget then some (delayColumn data) else none)

/--
`DelayModel.fit` (model.py lines 124-149): stores the fitted classifier in
`self._model`.  The training algorithm and the `joblib.dump` persistence are
external capabilities (spec §1), so the fitted classifier is taken as input;
what matters here is that `fit` does not touch `_feature_columns`.
-/
def DelayModel.fit (m : DelayModel) (trained : List (List Int) → List Int) : DelayModel :=
  { m with _model := some trained }

/--
`DelayModel.predict` (model.py lines 154-176).  Returns the predictions
together with the frame the **caller** observes afterwards: the column loop of
lines 169-171 mutates the argument in place (`features[col] = 0` on the passed
object), while line 172's selection rebinds only the local name.  `none`
models the paths that raise or do I/O (`self._model is None` → load from disk,
`self._feature_columns is None` → `TypeError` in the loop).
-/
def DelayModel.predict (m : DelayModel) (features : Frame) :
    Option (List Int × Frame) :=
  match m._model, m._feature_columns with
  | some clf, some cols =>
    let mutated := addMissingCols features cols
    let aligned := reindexTo mutated cols
    some (clf aligned.rows, mutated)
  | _, _ => none

/-!
## Serving layer (challenge/api/api.py)
-/

/-- The request record (api.py lines 209-212). -/
structure FlightData where
  OPERA : String
  MES : Int
  TIPOVUELO : String
deriving DecidableEq, Repr

/-- The categorical fields of a request record, in the `DataFrame` built by
`_build_features`. -/
def FlightData.toCat (f : FlightData) : CatRow := ⟨f.OPERA, f.TIPOVUELO, f.MES⟩

/-- The whitelist of api.py lines 219-225. -/
def VALID_OPERAS : List String :=
  ["Grupo LATAM", "Aerolineas Argentinas", "Sky Airline", "Copa Air",
   "Latin American Wings"]

/-- The whitelist of api.py line 226. -/
def VALID_TIPOVUELOS : List String := ["N", "I"]

/-- An `HTTPException(status_code, detail)`. -/
structure HTTPEx where
  status : Nat
  detail : String
deriving DecidableEq, Repr

/-- `_validate_flight` (api.py lines 230-236): first failing check raises. -/
def _validate_flight (f : FlightData) : Except HTTPEx Unit :=
  if ¬ VALID_OPERAS.contains f.OPERA then
    .error ⟨400, "Invalid airline (OPERA)"⟩
  else if ¬ VALID_TIPOVUELOS.contains f.TIPOVUELO then
    .error ⟨400, "Invalid flight type (TIPOVUELO)"⟩
  else if ¬ (1 ≤ f.MES ∧ f.MES ≤ 12) then
    .error ⟨400, "Invalid month (MES)"⟩
  else
    .ok ()

/-- Does a record pass `_validate_flight`? -/
def validFlight (f : FlightData) : Bool :=
  VALID_OPERAS.contains f.OPERA && VALID_TIPOVUELOS.contains f.TIPOVUELO
    && decide (1 ≤ f.MES) && decide (f.MES ≤ 12)

/-- The validation loop of api.py lines 271-272. -/
def validateAll : List FlightData → Except HTTPEx Unit
  | [] => .ok ()
  | f :: fs => do
    _validate_flight f
    validateAll fs

/-- The module-level classifier `xgb_model`: opaque, may raise. -/
def Classif : Type := List (List Int) → Except Unit (List Int)

/--
`_build_features` (api.py lines 239-259), non-fake mode: fail with
`Model not available` when the classifier or its feature-name list is missing;
otherwise one-hot encode the flight records and align them to `feature_names`
(append missing columns zero-filled, then reindex).  In fake mode the function
is never reached with a model to apply (see `predict_delay`).  Edge not
modelled: on an empty flight list pandas `get_dummies` raises `KeyError`
(surfaced as an unhandled 500), while this embedding aligns an empty frame;
every claim about successful calls concerns nonempty batches, and implications
about successful empty-batch calls hold vacuously for the real code.
-/
def _build_features (model : Option Classif) (feature_names : List String)
    (flights : List FlightData) : Except HTTPEx Frame :=
  if model.isNone ∨ feature_names = [] then
    .error ⟨500, "Model not available"⟩
  else
    .ok (buildAligned (encodeCat (flights.map FlightData.toCat)) feature_names)

/-- The request payload: pydantic accepts `{"flights": [...]}` or a single
record (api.py line 268). -/
inductive Payload where
  | batch (fs : List FlightData)
  | single (f : FlightData)
deriving DecidableEq, Repr

/-- `payload.flights if isinstance(payload, BatchRequest) else [payload]`. -/
def Payload.toFlights : Payload → List FlightData
  | .batch fs => fs
  | .single f => [f]

/-- The endpoint's successful response body (api.py lines 285-297). -/
inductive PredictResponse where
  | batchResp (predict : List Int)
  | singleResp (delay_prediction : Int) (airline : String) (month : Int)
      (flight_type : String)
deriving DecidableEq, Repr

/-- Number of per-row predictions a successful response carries. -/
def PredictResponse.numPreds : PredictResponse → Nat
  | .batchResp l => l.length
  | .singleResp _ _ _ _ => 1

/--
`predict_delay` (api.py lines 267-297).  Validation runs first; in fake mode
predictions are all 0 without touching the model; otherwise the features are
built (`Model not available` when classifier or schema missing), the opaque
classifier is applied (any raise becomes `Internal prediction error`), and the
response is shaped by the payload form.  `predictions[0]` on an empty
prediction list is Python's `IndexError`, surfaced by the framework as a 500.
The best-effort BigQuery logging on the single path is an external
collaborator side effect with no influence on the response.
-/
def predict_delay (fakeMode : Bool) (model : Option Classif)
    (feature_names : List String) (payload : Payload) :
    Except HTTPEx PredictResponse := do
  let flights := payload.toFlights
  validateAll flights
  let predictions ←
    if fakeMode then
      pure (flights.map (fun _ => (0 : Int)))
    else do
      let df ← _build_features model feature_names flights
      match model with
      | none => Except.error ⟨500, "Model not available"⟩
      | some clf =>
        match clf df.rows with
        | .error _ => Except.error ⟨500, "Internal prediction error"⟩
        | .ok raw => pure raw
  match payload with
  | .batch _ => pure (.batchResp predictions)
  | .single f =>
    match predictions with
    | [] => Except.error ⟨500, "Internal Server Error"⟩
    | result :: _ =>
      pure (.singleResp result f.OPERA f.MES f.TIPOVUELO)

/-- The indicator value a single record contributes at a column name:
1 exactly at its own three indicator columns, 0 elsewhere. -/
def flightIndicator (r : CatRow) (c : String) : Int :=
  if c = operaName r.opera then 1
  else if c = tipoName r.tipovuelo then 1
  else if c = mesName r.mes then 1
  else 0

/-- A classifier that never raises and predicts row by row (as the fitted
XGBoost classifier does). -/
def rowwise (f : List Int → Int) : Classif :=
  fun m => .ok (m.map f)

/-!
## Supporting lemmas
-/

theorem charListLe_total (as bs : List Char) :
    charListLe as bs = true ∨ charListLe bs as = true := by
  induction as generalizing bs with
  | nil => left; rfl
  | cons a as ih =>
    cases bs with
    | nil => right; rfl
    | cons b bs =>
      simp only [charListLe]
      rcases Nat.lt_trichotomy a.toNat b.toNat with h | h | h
      · left; simp [h]
      · rcases ih bs with h2 | h2
        · left; simp [h, h2]
        · right; simp [h.symm, h2]
      · right; simp [h]

theorem charListLe_trans (as bs cs : List Char) (h1 : charListLe as bs = true)
    (h2 : charListLe bs cs = true) : charListLe as cs = true := by
  induction as generalizing bs cs with
  | nil => rfl
  | cons a as ih =>
    cases bs with
    | nil => simp [charListLe] at h1
    | cons b bs =>
      cases cs with
      | nil => simp [charListLe] at h2
      | cons c cs =>
        simp only [charListLe] at h1 h2 ⊢
        split_ifs at h1 h2 ⊢
        all_goals try rfl
        all_goals try omega
        all_goals exact ih bs cs h1 h2

instance : IsTotal String (fun a b => strLe a b = true) :=
  ⟨fun a b => charListLe_total a.data b.data⟩

instance : IsTrans String (fun a b => strLe a b = true) :=
  ⟨fun a b c => charListLe_trans a.data b.data c.data⟩

theorem uniqueSortedStrings_nodup (xs : List String) : (uniqueSortedStrings xs).Nodup :=
  (List.perm_insertionSort _ xs.dedup).symm.nodup (List.nodup_dedup xs)

theorem uniqueSortedStrings_mem (xs : List String) (v : String) :
    v ∈ uniqueSortedStrings xs ↔ v ∈ xs := by
  rw [uniqueSortedStrings, (List.perm_insertionSort _ xs.dedup).mem_iff, List.mem_dedup]

theorem uniqueSortedStrings_sorted (xs : List String) :
    (uniqueSortedStrings xs).Sorted (fun a b => strLe a b = true) :=
  List.sorted_insertionSort _ xs.dedup

theorem uniqueSortedInts_nodup (xs : List Int) : (uniqueSortedInts xs).Nodup :=
  (List.perm_insertionSort _ xs.dedup).symm.nodup (List.nodup_dedup xs)

theorem uniqueSortedInts_mem (xs : List Int) (v : Int) :
    v ∈ uniqueSortedInts xs ↔ v ∈ xs := by
  rw [uniqueSortedInts, (List.perm_insertionSort _ xs.dedup).mem_iff, List.mem_dedup]

theorem uniqueSortedInts_sorted (xs : List Int) :
    (uniqueSortedInts xs).Sorted (· ≤ ·) :=
  List.sorted_insertionSort _ xs.dedup

/-!
## Claim theorems
-/

/-- C1: the claim states that after `fit` no operation — in particular no
later `preprocess` on an inference batch — changes `_feature_columns`.  The
code violates this: `preprocess` stores the freshly encoded batch columns on
every call (model.py line 111), so an inference-time `preprocess` after
training replaces the trained schema (here a two-airline training schema
collapses to the inference batch's own single-airline column list). -/
theorem c1_feature_columns_overwritten_after_fit :
    (let trainBatch : PreFrame :=
       ⟨[⟨"2017-01-01 10:00:00", "2017-01-01 10:40:00", "Copa Air", "N", 1⟩,
         ⟨"2017-01-01 22:00:00", "2017-01-01 22:05:00", "Sky Airline", "N", 1⟩], none⟩
     let inferBatch : PreFrame :=
       ⟨[⟨"2017-02-01 10:00:00", "2017-02-01 10:00:00", "Sky Airline", "N", 2⟩], none⟩
     let trained : DelayModel :=
       DelayModel.fit (DelayModel.preprocess ⟨none, none⟩ trainBatch true).1
         (fun rows => rows.map (fun _ => 0))
     trained._feature_columns
         = some ["OPERA_Copa Air", "OPERA_Sky Airline", "TIPOVUELO_N", "MES_1"]
       ∧ (DelayModel.preprocess trained inferBatch false).1._feature_columns
         = some ["OPERA_Sky Airline", "TIPOVUELO_N", "MES_2"]
       ∧ (DelayModel.preprocess trained inferBatch false).1._feature_columns
         ≠ trained._feature_columns) :=
  ⟨by decide, by decide, by decide⟩

/-- C5: `preprocess` hands back the `delay` column unchanged when the data
already carries one; otherwise it derives `delay` from `min_diff` with the
fixed 15-minute threshold: 1 exactly when `min_diff > 15`, 0 when
`min_diff ≤ 15`, hence 0 at the boundary `min_diff = 15`. -/
theorem c5_label_derivation (m : DelayModel) (data : PreFrame) :
    (m.preprocess data true).2.2 = some (delayColumn data)
  ∧ (∀ d, data.delayCol = some d → delayColumn data = d)
  ∧ (data.delayCol = none → delayColumn data = (minDiffCol data).map deriveDelay)
  ∧ (∀ v : Rat, (deriveDelay v = 1 ↔ 15 < v) ∧ (deriveDelay v = 0 ↔ v ≤ 15))
  ∧ deriveDelay 15 = 0 := by
  refine ⟨rfl, fun d hd => by simp [delayColumn, hd],
    fun hd => by simp [delayColumn, hd], fun v => ⟨?_, ?_⟩, by norm_num [deriveDelay]⟩
  · unfold deriveDelay
    split_ifs with h <;> simp [h]
  · unfold deriveDelay
    split_ifs with h
    · simp [not_le.mpr h]
    · simp [not_lt.mp h]

/-- Witness for C5: a batch with `min_diff` 15 (boundary), 20 and a parse
failure derives the labels `[0, 1, 0]`. -/
theorem c5_witness :
    (DelayModel.preprocess ⟨none, none⟩
        ⟨[⟨"2017-01-01 10:00:00", "2017-01-01 10:15:00", "Grupo LATAM", "N", 1⟩,
          ⟨"2017-01-01 10:00:00", "2017-01-01 10:20:00", "Grupo LATAM", "N", 1⟩,
          ⟨"bad-date", "2017-01-01 10:00:00", "Grupo LATAM", "N", 1⟩], none⟩
        true).2.2 = some [0, 1, 0] := by
  rw [(c5_label_derivation ⟨none, none⟩ _).1]
  have e1 : get_min_diff "2017-01-01 10:15:00" "2017-01-01 10:00:00" = 15 := by
    simp only [get_min_diff,
      show parseDateTime "2017-01-01 10:15:00" = some ⟨2017, 1, 1, 10, 15, 0⟩ from by decide,
      show parseDateTime "2017-01-01 10:00:00" = some ⟨2017, 1, 1, 10, 0, 0⟩ from by decide]
    rw [show (toSecs ⟨2017, 1, 1, 10, 15, 0⟩ - toSecs ⟨2017, 1, 1, 10, 0, 0⟩ : Int) = 900 from by
      decide]
    norm_num
  have e2 : get_min_diff "2017-01-01 10:20:00" "2017-01-01 10:00:00" = 20 := by
    simp only [get_min_diff,
      show parseDateTime "2017-01-01 10:20:00" = some ⟨2017, 1, 1, 10, 20, 0⟩ from by decide,
      show parseDateTime "2017-01-01 10:00:00" = some ⟨2017, 1, 1, 10, 0, 0⟩ from by decide]
    rw [show (toSecs ⟨2017, 1, 1, 10, 20, 0⟩ - toSecs ⟨2017, 1, 1, 10, 0, 0⟩ : Int) = 1200 from by
      decide]
    norm_num
  have e3 : get_min_diff "2017-01-01 10:00:00" "bad-date" = 0 := by
    simp [get_min_diff, show parseDateTime "bad-date" = none from by decide]
  simp only [delayColumn, minDiffCol, List.map_cons, List.map_nil, e1, e2, e3]
  norm_num [deriveDelay]

/-- C6: the three temporal extractors are total functions of their string
inputs and degrade to the documented defaults on parse failure:
`get_period_day` returns `"noche"`, `is_high_season` returns 0, and
`get_min_diff` returns 0 when parsing of either timestamp fails. -/
theorem c6_extractors_fail_safe (s sI sO : String) :
    (parseDateTime s = none → get_period_day s = "noche")
  ∧ (parseDateTime s = none → is_high_season s = 0)
  ∧ ((parseDateTime sI = none ∨ parseDateTime sO = none) → get_min_diff sO sI = 0) := by
  refine ⟨fun h => by simp [get_period_day, h], fun h => by simp [is_high_season, h],
    fun h => ?_⟩
  cases hO : parseDateTime sO <;> cases hI : parseDateTime sI <;>
    simp_all [get_min_diff]

/-- Witness for C6: a non-timestamp string and an invalid calendar date
(February 30) both fail to parse and yield the documented defaults. -/
theorem c6_witness :
    get_period_day "not-a-date" = "noche" ∧ is_high_season "not-a-date" = 0
    ∧ get_min_diff "2017-01-01 00:00:00" "2017-02-30 00:00:00" = 0 := by
  have h := c6_extractors_fail_safe "not-a-date" "2017-02-30 00:00:00" "2017-01-01 00:00:00"
  exact ⟨h.1 rfl, h.2.1 rfl, h.2.2 (Or.inl rfl)⟩

/-- C7 counterexample: the claim says the columns inside each source-column
block are ordered by column-name sort order, but for a batch observing the
months 2 and 10 the encoder emits `MES_2` before `MES_10`, while in
column-name (lexicographic) order `"MES_10"` sorts strictly before
`"MES_2"`. -/
theorem c7_counterexample :
    (encodeCat [⟨"Grupo LATAM", "N", 2⟩, ⟨"Grupo LATAM", "N", 10⟩]).cols
      = ["OPERA_Grupo LATAM", "TIPOVUELO_N", "MES_2", "MES_10"]
    ∧ strLe "MES_10" "MES_2" = true ∧ "MES_10" ≠ "MES_2" :=
  ⟨by decide, by decide, by decide⟩

/-- C7 (amended): the encoder produces one indicator column per distinct
value observed in the batch, named `<column>_<value>`; inside each block the
columns follow the ascending sort order of the observed **values**
(lexicographic for the string columns `OPERA`/`TIPOVUELO` — where it
coincides with name order — numeric for the integer column `MES`); the three
blocks are concatenated in the fixed order `[OPERA, TIPOVUELO, MES]`. -/
theorem c7_amended_encoder_columns (rows : List CatRow) :
    (encodeCat rows).cols
      = (uniqueSortedStrings (rows.map (·.opera))).map operaName
        ++ (uniqueSortedStrings (rows.map (·.tipovuelo))).map tipoName
        ++ (uniqueSortedInts (rows.map (·.mes))).map mesName
  ∧ ((uniqueSortedStrings (rows.map (·.opera))).Nodup
      ∧ (uniqueSortedStrings (rows.map (·.opera))).Sorted (fun a b => strLe a b = true)
      ∧ (∀ v, v ∈ uniqueSortedStrings (rows.map (·.opera)) ↔ v ∈ rows.map (·.opera)))
  ∧ ((uniqueSortedStrings (rows.map (·.tipovuelo))).Nodup
      ∧ (uniqueSortedStrings (rows.map (·.tipovuelo))).Sorted (fun a b => strLe a b = true)
      ∧ (∀ v, v ∈ uniqueSortedStrings (rows.map (·.tipovuelo)) ↔ v ∈ rows.map (·.tipovuelo)))
  ∧ ((uniqueSortedInts (rows.map (·.mes))).Nodup
      ∧ (uniqueSortedInts (rows.map (·.mes))).Sorted (· ≤ ·)
      ∧ (∀ v, v ∈ uniqueSortedInts (rows.map (·.mes)) ↔ v ∈ rows.map (·.mes))) :=
  ⟨rfl,
   ⟨uniqueSortedStrings_nodup _, uniqueSortedStrings_sorted _, uniqueSortedStrings_mem _⟩,
   ⟨uniqueSortedStrings_nodup _, uniqueSortedStrings_sorted _, uniqueSortedStrings_mem _⟩,
   ⟨uniqueSortedInts_nodup _, uniqueSortedInts_sorted _, uniqueSortedInts_mem _⟩⟩

/-- C8: `get_period_day` takes one of exactly three values; on a parsed
timestamp the buckets are `[05:00, 11:59] → "mañana"` and
`[12:00, 18:59] → "tarde"` with both endpoints inclusive (as times, so e.g.
`11:59:30` falls outside the morning bucket), everything else `"noche"`; and
the result depends only on the time-of-day fields, not the date. -/
theorem c8_period_day_buckets (s : String) :
    (get_period_day s = "mañana" ∨ get_period_day s = "tarde" ∨ get_period_day s = "noche")
  ∧ (∀ dt, parseDateTime s = some dt →
      ((get_period_day s = "mañana" ↔
          5 * 3600 ≤ timeKey dt ∧ timeKey dt ≤ 11 * 3600 + 59 * 60)
        ∧ (get_period_day s = "tarde" ↔
          12 * 3600 ≤ timeKey dt ∧ timeKey dt ≤ 18 * 3600 + 59 * 60)))
  ∧ (∀ s2 dt dt2, parseDateTime s = some dt → parseDateTime s2 = some dt2 →
      dt.hour = dt2.hour → dt.minute = dt2.minute → dt.second = dt2.second →
      get_period_day s = get_period_day s2) := by
  refine ⟨?_, ?_, ?_⟩
  · cases h : parseDateTime s with
    | none => simp [get_period_day, h]
    | some dt =>
      simp only [get_period_day, h]
      split_ifs <;> simp
  · intro dt h
    simp only [get_period_day, h, timeKey]
    split_ifs with h1 h2 <;>
      constructor <;> constructor <;> intro hx <;> simp_all <;> omega
  · intro s2 dt dt2 h h2 hh hm hs
    simp only [get_period_day, h, h2, timeKey, hh, hm, hs]

/-- Witness for C8: `05:00:00` is in the morning bucket (inclusive left
endpoint), on two different dates with the same time-of-day. -/
theorem c8_witness :
    get_period_day "2017-01-01 05:00:00" = "mañana"
    ∧ get_period_day "2017-07-02 05:00:00" = "mañana" := by
  have h := c8_period_day_buckets "2017-01-01 05:00:00"
  have hm := (h.2.1 ⟨2017, 1, 1, 5, 0, 0⟩ (by decide)).1.mpr (by norm_num [timeKey])
  have h3 := h.2.2 "2017-07-02 05:00:00" ⟨2017, 1, 1, 5, 0, 0⟩ ⟨2017, 7, 2, 5, 0, 0⟩
    (by decide) (by decide) rfl rfl rfl
  exact ⟨hm, h3.symm.trans hm⟩

/-!
## Alignment lemmas (for C2, C9, C10)
-/

theorem addMissingCols_cons (f : Frame) (c : String) (s : List String) :
    addMissingCols f (c :: s) =
      addMissingCols (if c ∈ f.cols then f else ⟨f.cols ++ [c], f.rows.map (· ++ [0])⟩) s := by
  simp only [addMissingCols, List.foldl_cons]

theorem addMissingCols_eq (f : Frame) (s : List String) :
    addMissingCols f s =
      ⟨f.cols ++ newCols f.cols s,
       f.rows.map (· ++ List.replicate (newCols f.cols s).length 0)⟩ := by
  induction s generalizing f with
  | nil =>
    simp [addMissingCols, newCols]
  | cons c s ih =>
    rw [addMissingCols_cons]
    by_cases hc : c ∈ f.cols
    · rw [if_pos hc, ih]
      simp [newCols, hc]
    · rw [if_neg hc, ih]
      simp only [newCols, hc, if_neg, ite_false]
      refine congrArg₂ Frame.mk ?_ ?_
      · simp
      · simp only [List.map_map]
        refine List.map_congr_left (fun r _ => ?_)
        simp [Function.comp, List.replicate_succ, List.append_assoc]

theorem cellAt_zeros (cols : List String) (k : Nat) (c : String) :
    cellAt cols (List.replicate k 0) c = 0 := by
  induction cols generalizing k with
  | nil => rfl
  | cons c0 cols ih =>
    cases k with
    | zero => rfl
    | succ k =>
      simp only [List.replicate_succ, cellAt]
      split
      · rfl
      · exact ih k

theorem cellAt_append_pad (cols ext : List String) (row : List Int) (k : Nat) (c : String)
    (hlen : row.length = cols.length) :
    cellAt (cols ++ ext) (row ++ List.replicate k 0) c = cellAt cols row c := by
  induction cols generalizing row with
  | nil =>
    rw [List.length_nil, List.length_eq_zero] at hlen
    subst hlen
    simp only [List.nil_append, cellAt]
    exact cellAt_zeros ext k c
  | cons c0 cols ih =>
    cases row with
    | nil => simp at hlen
    | cons v row =>
      simp only [List.cons_append, cellAt]
      split
      · rfl
      · exact ih row (by simpa using hlen)

theorem cellAt_not_mem (cols : List String) (row : List Int) (c : String) (hc : c ∉ cols) :
    cellAt cols row c = 0 := by
  induction cols generalizing row with
  | nil => rfl
  | cons c0 cols ih =>
    cases row with
    | nil => rfl
    | cons v row =>
      simp only [cellAt]
      simp only [List.mem_cons, not_or] at hc
      rw [if_neg (fun he => hc.1 he.symm), ih row hc.2]

theorem cellAt_map_self (schema : List String) (h : String → Int) (c : String)
    (hc : c ∈ schema) :
    cellAt schema (schema.map h) c = h c := by
  induction schema with
  | nil => simp at hc
  | cons s0 schema ih =>
    simp only [List.map_cons, cellAt]
    by_cases he : s0 = c
    · rw [if_pos he, he]
    · rw [if_neg he]
      rcases List.mem_cons.mp hc with h1 | h1
      · exact absurd h1.symm he
      · exact ih h1

theorem buildAligned_cols (f : Frame) (schema : List String) :
    (buildAligned f schema).cols = schema := rfl

theorem buildAligned_rows (f : Frame) (schema : List String) (hwf : FrameWF f) :
    (buildAligned f schema).rows = f.rows.map (fun row => schema.map (cellAt f.cols row)) := by
  unfold buildAligned reindexTo
  rw [addMissingCols_eq]
  simp only [List.map_map]
  refine List.map_congr_left (fun r hr => ?_)
  refine List.map_congr_left (fun c _ => ?_)
  exact cellAt_append_pad f.cols _ r _ c (hwf r hr)

theorem newCols_eq_nil (cols s : List String) (h : ∀ c ∈ s, c ∈ cols) :
    newCols cols s = [] := by
  induction s generalizing cols with
  | nil => rfl
  | cons c s ih =>
    simp only [newCols]
    rw [if_pos (h c (List.mem_cons_self c s))]
    exact ih cols (fun c2 hc2 => h c2 (List.mem_cons_of_mem _ hc2))

theorem newCols_ne_nil (cols s : List String) (c : String) (hcs : c ∈ s) (hcc : c ∉ cols) :
    newCols cols s ≠ [] := by
  induction s generalizing cols with
  | nil => simp at hcs
  | cons a s ih =>
    simp only [newCols]
    by_cases ha : a ∈ cols
    · rw [if_pos ha]
      rcases List.mem_cons.mp hcs with h1 | h1
      · exact absurd ha (h1 ▸ hcc)
      · exact ih cols h1 hcc
    · rw [if_neg ha]
      simp

theorem addMissingCols_of_subset (f : Frame) (s : List String) (h : ∀ c ∈ s, c ∈ f.cols) :
    addMissingCols f s = f := by
  rw [addMissingCols_eq, newCols_eq_nil f.cols s h]
  simp

theorem map_cellAt_map_self (schema : List String) (h : String → Int) :
    schema.map (cellAt schema (schema.map h)) = schema.map h :=
  List.map_congr_left (fun c hc => cellAt_map_self schema h c hc)

/-- C2: for every rectangular input matrix and every schema, the Schema
Aligner (`addMissingCols` then `reindexTo`, as in `_build_features`) yields a
matrix whose columns are exactly the schema in schema order; input columns
outside the schema are dropped; row count and row order are preserved (row
`i` of the output is row `i` of the input looked up at the schema columns);
and a schema column absent from the input is 0 in every output row. -/
theorem c2_schema_aligner (f : Frame) (schema : List String) (hwf : FrameWF f) :
    (buildAligned f schema).cols = schema
  ∧ (∀ c, c ∉ schema → c ∉ (buildAligned f schema).cols)
  ∧ (buildAligned f schema).rows.length = f.rows.length
  ∧ (buildAligned f schema).rows = f.rows.map (fun row => schema.map (cellAt f.cols row))
  ∧ (∀ c, c ∈ schema → c ∉ f.cols →
      ∀ r ∈ (buildAligned f schema).rows, cellAt schema r c = 0) := by
  have hrows := buildAligned_rows f schema hwf
  refine ⟨rfl, fun c hc => hc, ?_, hrows, ?_⟩
  · rw [hrows, List.length_map]
  · intro c hcs hcf r hr
    rw [hrows] at hr
    obtain ⟨row, hrow, rfl⟩ := List.mem_map.mp hr
    rw [cellAt_map_self schema _ c hcs]
    exact cellAt_not_mem f.cols row c hcf

/-- Witness for C2: a frame with one extra column (`JUNK`, dropped) aligned
to a schema with one missing column (`MES_1`, zero-filled), order canonical,
one row in, one row out. -/
theorem c2_witness :
    (buildAligned ⟨["OPERA_X", "JUNK"], [[3, 9]]⟩ ["MES_1", "OPERA_X"]).cols
      = ["MES_1", "OPERA_X"]
    ∧ buildAligned ⟨["OPERA_X", "JUNK"], [[3, 9]]⟩ ["MES_1", "OPERA_X"]
      = ⟨["MES_1", "OPERA_X"], [[0, 3]]⟩ := by
  have h := c2_schema_aligner ⟨["OPERA_X", "JUNK"], [[3, 9]]⟩ ["MES_1", "OPERA_X"] (by decide)
  exact ⟨h.1, by decide⟩

/-- C9: schema alignment is idempotent — aligning the output of an alignment
to the same schema again returns it unchanged (same columns, same order, same
values in every row). -/
theorem c9_alignment_idempotent (f : Frame) (schema : List String) :
    buildAligned (buildAligned f schema) schema = buildAligned f schema := by
  have h1 : addMissingCols (buildAligned f schema) schema = buildAligned f schema :=
    addMissingCols_of_subset _ _ (fun c hc => hc)
  have h2 : buildAligned (buildAligned f schema) schema
      = reindexTo (buildAligned f schema) schema := by
    show reindexTo (addMissingCols (buildAligned f schema) schema) schema = _
    rw [h1]
  rw [h2]
  unfold buildAligned reindexTo
  simp only [List.map_map]
  refine congrArg (Frame.mk schema) ?_
  refine List.map_congr_left (fun r _ => ?_)
  exact map_cellAt_map_self schema (cellAt (addMissingCols f schema).cols r)

/-- C10: `DelayModel.predict` mutates its argument: when a stored feature
column is absent from the passed frame, the frame the caller observes after
the call is the original with every such column appended zero-filled
(model.py lines 169-171 assign into the caller's object), and it differs from
the frame passed in. -/
theorem c10_predict_mutates (m : DelayModel) (clf : List (List Int) → List Int)
    (schema : List String) (f : Frame)
    (hm : m._model = some clf) (hs : m._feature_columns = some schema)
    (c : String) (hcs : c ∈ schema) (hcf : c ∉ f.cols) :
    m.predict f = some (clf (reindexTo (addMissingCols f schema) schema).rows,
        addMissingCols f schema)
    ∧ (addMissingCols f schema).cols = f.cols ++ newCols f.cols schema
    ∧ newCols f.cols schema ≠ []
    ∧ addMissingCols f schema ≠ f := by
  refine ⟨?_, ?_, newCols_ne_nil f.cols schema c hcs hcf, ?_⟩
  · simp only [DelayModel.predict, hm, hs]
  · rw [addMissingCols_eq]
  · intro he
    have hc2 : (addMissingCols f schema).cols = f.cols := congrArg Frame.cols he
    rw [addMissingCols_eq] at hc2
    simp only at hc2
    have hlen := congrArg List.length hc2
    simp only [List.length_append] at hlen
    have h0 : (newCols f.cols schema).length = 0 := by omega
    exact newCols_ne_nil f.cols schema c hcs hcf (List.eq_nil_of_length_eq_zero h0)

/-- Witness for C10: a frame missing the stored column `MES_1` comes back
from `predict` with `MES_1` appended zero-filled — a different frame. -/
theorem c10_witness :
    (⟨some (fun rows => rows.map (fun _ => 0)), some ["OPERA_X", "MES_1"]⟩ : DelayModel).predict
        ⟨["OPERA_X"], [[7]]⟩ = some ([0], ⟨["OPERA_X", "MES_1"], [[7, 0]]⟩)
    ∧ addMissingCols ⟨["OPERA_X"], [[7]]⟩ ["OPERA_X", "MES_1"] ≠ ⟨["OPERA_X"], [[7]]⟩ := by
  have h := c10_predict_mutates
    ⟨some (fun rows => rows.map (fun _ => 0)), some ["OPERA_X", "MES_1"]⟩
    (fun rows => rows.map (fun _ => 0)) ["OPERA_X", "MES_1"] ⟨["OPERA_X"], [[7]]⟩
    rfl rfl "MES_1" (by decide) (by decide)
  refine ⟨h.1.trans ?_, h.2.2.2⟩
  decide

theorem validate_flight_ok (f : FlightData) (h : validFlight f = true) :
    _validate_flight f = .ok () := by
  unfold validFlight at h
  simp only [Bool.and_eq_true, decide_eq_true_eq] at h
  unfold _validate_flight
  rw [if_neg (not_not_intro h.1.1.1), if_neg (not_not_intro h.1.1.2),
    if_neg (not_not_intro ⟨h.1.2, h.2⟩)]

theorem validateAll_ok (fs : List FlightData) (h : ∀ f ∈ fs, validFlight f = true) :
    validateAll fs = .ok () := by
  induction fs with
  | nil => rfl
  | cons f fs ih =>
    show (_validate_flight f).bind (fun _ => validateAll fs) = .ok ()
    rw [validate_flight_ok f (h f (List.mem_cons_self f fs))]
    exact ih (fun g hg => h g (List.mem_cons_of_mem _ hg))

theorem except_bind_ok {e a b : Type} (x : a) (f : a → Except e b) :
    (Except.ok x : Except e a) >>= f = f x := rfl

theorem except_bind_error {e a b : Type} (err : e) (f : a → Except e b) :
    (Except.error err : Except e a) >>= f = Except.error err := rfl

theorem predict_delay_eq (model : Option Classif) (names : List String) (payload : Payload)
    (hval : validateAll payload.toFlights = .ok ()) :
    predict_delay false model names payload
      = match _build_features model names payload.toFlights with
        | .error e => .error e
        | .ok df =>
          match model with
          | none => .error ⟨500, "Model not available"⟩
          | some clf =>
            match clf df.rows with
            | .error _ => .error ⟨500, "Internal prediction error"⟩
            | .ok raw =>
              match payload with
              | .batch _ => .ok (.batchResp raw)
              | .single f =>
                match raw with
                | [] => .error ⟨500, "Internal Server Error"⟩
                | r :: _ => .ok (.singleResp r f.OPERA f.MES f.TIPOVUELO) := by
  simp only [predict_delay]
  rw [hval]
  simp only [except_bind_ok, Bool.false_eq_true, if_false]
  cases hb : _build_features model names payload.toFlights with
  | error e => simp only [except_bind_error]
  | ok df =>
    simp only [except_bind_ok]
    cases model with
    | none => simp only [except_bind_error]
    | some clf =>
      cases hc : clf df.rows with
      | error u => simp only [hc, except_bind_error]
      | ok raw =>
        simp only [hc, except_bind_ok]
        cases payload with
        | batch fs => rfl
        | single f =>
          cases raw with
          | nil => rfl
          | cons r rs => rfl

theorem buildAligned_rows_length (f : Frame) (schema : List String) :
    (buildAligned f schema).rows.length = f.rows.length := by
  unfold buildAligned reindexTo
  rw [addMissingCols_eq]
  simp

/-- C4: with pre-validated inputs, if the classifier or its feature-name list
is unavailable the whole call fails with `Model not available` and no
predictions; if the classifier invocation raises, the whole call fails with
`Internal prediction error`; and any successful call returns exactly one
prediction per input row (all-or-nothing, for batch and single form alike,
given that the classifier yields one prediction per matrix row). -/
theorem c4_error_handling (model : Option Classif)
    (feature_names : List String) (payload : Payload)
    (hvalid : ∀ f ∈ payload.toFlights, validFlight f = true) :
    ((model = none ∨ feature_names = []) →
      predict_delay false model feature_names payload
        = .error ⟨500, "Model not available"⟩)
  ∧ (∀ clf, model = some clf → feature_names ≠ [] →
      clf (buildAligned (encodeCat (payload.toFlights.map FlightData.toCat))
          feature_names).rows = .error () →
      predict_delay false model feature_names payload
        = .error ⟨500, "Internal prediction error"⟩)
  ∧ (∀ clf, model = some clf →
      (∀ m l, clf m = Except.ok l → l.length = m.length) →
      ∀ resp, predict_delay false model feature_names payload = .ok resp →
      resp.numPreds = payload.toFlights.length) := by
  have hrun := predict_delay_eq model feature_names payload
    (validateAll_ok payload.toFlights hvalid)
  refine ⟨?_, ?_, ?_⟩
  · intro hm
    have hb : _build_features model feature_names payload.toFlights
        = .error ⟨500, "Model not available"⟩ := by
      unfold _build_features
      rcases hm with hm | hm <;> simp [hm]
    rw [hrun, hb]
  · intro clf hm hn hclf
    have hb : _build_features model feature_names payload.toFlights
        = .ok (buildAligned (encodeCat (payload.toFlights.map FlightData.toCat))
            feature_names) := by
      unfold _build_features
      simp [hm, hn]
    rw [hrun, hb, hm]
    simp only [hclf]
  · intro clf hm hlen resp hresp
    rw [hrun] at hresp
    by_cases hn : feature_names = []
    · have hb : _build_features model feature_names payload.toFlights
          = .error ⟨500, "Model not available"⟩ := by
        unfold _build_features
        simp [hn]
      rw [hb] at hresp
      simp at hresp
    · have hb : _build_features model feature_names payload.toFlights
          = .ok (buildAligned (encodeCat (payload.toFlights.map FlightData.toCat))
              feature_names) := by
        unfold _build_features
        simp [hm, hn]
      rw [hb, hm] at hresp
      simp only [] at hresp
      rcases hc : clf (buildAligned (encodeCat (payload.toFlights.map FlightData.toCat))
          feature_names).rows with u | preds
      · rw [hc] at hresp
        simp at hresp
      · rw [hc] at hresp
        have hplen : preds.length = payload.toFlights.length := by
          rw [hlen _ _ hc, buildAligned_rows_length]
          simp [encodeCat]
        cases payload with
        | batch fs =>
          simp only [Except.ok.injEq] at hresp
          rw [← hresp]
          simpa [PredictResponse.numPreds] using hplen
        | single f =>
          cases preds with
          | nil => simp at hresp
          | cons p ps =>
            simp only [Except.ok.injEq] at hresp
            rw [← hresp]
            rfl

/-- Witness for C4: a valid single-flight call with no model yields the
model-unavailable error; with an always-raising classifier it yields the
inference error. -/
theorem c4_witness :
    predict_delay false none ["OPERA_Grupo LATAM"] (.single ⟨"Grupo LATAM", 5, "N"⟩)
      = .error ⟨500, "Model not available"⟩
    ∧ predict_delay false (some (fun _ => .error ())) ["OPERA_Grupo LATAM"]
        (.single ⟨"Grupo LATAM", 5, "N"⟩)
      = .error ⟨500, "Internal prediction error"⟩ := by
  constructor
  · exact (c4_error_handling none ["OPERA_Grupo LATAM"] (.single ⟨"Grupo LATAM", 5, "N"⟩)
      (by decide)).1 (Or.inl rfl)
  · exact (c4_error_handling (some (fun _ => .error ())) ["OPERA_Grupo LATAM"]
      (.single ⟨"Grupo LATAM", 5, "N"⟩) (by decide)).2.1 _ rfl (by simp) rfl


/-!
## Column-name lemmas and the per-cell value of the encoder (for C3)
-/

theorem string_data_inj (s t : String) (h : s.data = t.data) : s = t := by
  cases s
  cases t
  exact congrArg String.mk h

theorem operaName_inj (a b : String) (h : operaName a = operaName b) : a = b := by
  have hd : 'O' :: 'P' :: 'E' :: 'R' :: 'A' :: '_' :: a.data
      = 'O' :: 'P' :: 'E' :: 'R' :: 'A' :: '_' :: b.data := congrArg String.data h
  exact string_data_inj a b (by simpa using hd)

theorem tipoName_inj (a b : String) (h : tipoName a = tipoName b) : a = b := by
  have hd : 'T' :: 'I' :: 'P' :: 'O' :: 'V' :: 'U' :: 'E' :: 'L' :: 'O' :: '_' :: a.data
      = 'T' :: 'I' :: 'P' :: 'O' :: 'V' :: 'U' :: 'E' :: 'L' :: 'O' :: '_' :: b.data :=
    congrArg String.data h
  exact string_data_inj a b (by simpa using hd)

theorem operaName_ne_tipoName (a b : String) : operaName a ≠ tipoName b := by
  intro h
  have hd : 'O' :: 'P' :: 'E' :: 'R' :: 'A' :: '_' :: a.data
      = 'T' :: 'I' :: 'P' :: 'O' :: 'V' :: 'U' :: 'E' :: 'L' :: 'O' :: '_' :: b.data :=
    congrArg String.data h
  exact absurd (List.cons.inj hd).1 (by decide)

theorem operaName_ne_mesName (a : String) (v : Int) : operaName a ≠ mesName v := by
  intro h
  have hd : 'O' :: 'P' :: 'E' :: 'R' :: 'A' :: '_' :: a.data
      = 'M' :: 'E' :: 'S' :: '_' :: (toString v).data := congrArg String.data h
  exact absurd (List.cons.inj hd).1 (by decide)

theorem tipoName_ne_mesName (a : String) (v : Int) : tipoName a ≠ mesName v := by
  intro h
  have hd : 'T' :: 'I' :: 'P' :: 'O' :: 'V' :: 'U' :: 'E' :: 'L' :: 'O' :: '_' :: a.data
      = 'M' :: 'E' :: 'S' :: '_' :: (toString v).data := congrArg String.data h
  exact absurd (List.cons.inj hd).1 (by decide)

theorem mesName_inj_valid (a b : Int) (ha1 : 1 ≤ a) (ha2 : a ≤ 12)
    (hb1 : 1 ≤ b) (hb2 : b ≤ 12) (h : mesName a = mesName b) : a = b := by
  have hts : toString a = toString b := by
    have hd : 'M' :: 'E' :: 'S' :: '_' :: (toString a).data
        = 'M' :: 'E' :: 'S' :: '_' :: (toString b).data := congrArg String.data h
    exact string_data_inj _ _ (by simpa using hd)
  have hmem : ∀ x ∈ ([1, 2, 3, 4, 5, 6, 7, 8, 9, 10, 11, 12] : List Int),
      ∀ y ∈ ([1, 2, 3, 4, 5, 6, 7, 8, 9, 10, 11, 12] : List Int),
      toString x = toString y → x = y := by decide
  have hma : a ∈ ([1, 2, 3, 4, 5, 6, 7, 8, 9, 10, 11, 12] : List Int) := by
    simp only [List.mem_cons, List.not_mem_nil, or_false]
    omega
  have hmb : b ∈ ([1, 2, 3, 4, 5, 6, 7, 8, 9, 10, 11, 12] : List Int) := by
    simp only [List.mem_cons, List.not_mem_nil, or_false]
    omega
  exact hmem a hma b hmb hts

theorem cellAt_all_zero (cols : List String) (row : List Int) (c : String)
    (h : ∀ v ∈ row, v = 0) : cellAt cols row c = 0 := by
  induction cols generalizing row with
  | nil => rfl
  | cons c0 cols ih =>
    cases row with
    | nil => rfl
    | cons v row =>
      simp only [cellAt]
      split
      · exact h v (List.mem_cons_self v row)
      · exact ih row (fun w hw => h w (List.mem_cons_of_mem _ hw))

theorem cellAt_block {α : Type} [DecidableEq α] (vals : List α) (name : α → String)
    (hinj : ∀ a ∈ vals, ∀ b ∈ vals, name a = name b → a = b) (hnd : vals.Nodup)
    (x : α) (hx : x ∈ vals) (c : String) :
    cellAt (vals.map name) (vals.map fun v => if x = v then 1 else 0) c
      = if c = name x then 1 else 0 := by
  induction vals with
  | nil => exact absurd hx (List.not_mem_nil x)
  | cons v vals ih =>
    simp only [List.map_cons, cellAt]
    by_cases hc : name v = c
    · rw [if_pos hc]
      by_cases hxv : x = v
      · rw [if_pos hxv, if_pos (show c = name x by rw [hxv]; exact hc.symm)]
      · rw [if_neg hxv, if_neg ?_]
        intro hcx
        exact hxv (hinj x hx v (List.mem_cons_self v vals) (hc.trans hcx).symm)
    · rw [if_neg hc]
      by_cases hxv : x = v
      · subst hxv
        have hnot : x ∉ vals := (List.nodup_cons.mp hnd).1
        have hz : cellAt (vals.map name) (vals.map fun w => if x = w then 1 else 0) c = 0 :=
          cellAt_all_zero _ _ _ (fun w hw => by
            obtain ⟨v2, hv2, rfl⟩ := List.mem_map.mp hw
            exact if_neg (fun he : x = v2 => hnot (he.symm ▸ hv2)))
        rw [hz, if_neg (fun hcx => hc hcx.symm)]
      · exact ih (fun a ha b hb => hinj a (List.mem_cons_of_mem _ ha) b (List.mem_cons_of_mem _ hb))
          (List.nodup_cons.mp hnd).2 (List.mem_of_ne_of_mem hxv hx)

theorem cellAt_append_cases (cols1 cols2 : List String) (row1 row2 : List Int) (c : String)
    (hlen : row1.length = cols1.length) :
    cellAt (cols1 ++ cols2) (row1 ++ row2) c
      = if c ∈ cols1 then cellAt cols1 row1 c else cellAt cols2 row2 c := by
  induction cols1 generalizing row1 with
  | nil =>
    rw [List.length_nil, List.length_eq_zero] at hlen
    subst hlen
    rw [List.nil_append, List.nil_append, if_neg (List.not_mem_nil c)]
  | cons c0 cols1 ih =>
    cases row1 with
    | nil => simp at hlen
    | cons v row1 =>
      have hlen2 : row1.length = cols1.length := by simpa using hlen
      by_cases h0 : c0 = c
      · simp [cellAt, h0, List.cons_append]
      · by_cases hin : c ∈ cols1
        · simp [cellAt, h0, hin, ih row1 hlen2, List.cons_append]
        · simp [cellAt, h0, hin, ih row1 hlen2, List.cons_append]
          rw [if_neg (fun he => h0 he.symm)]

theorem encodeCat_wf (rows : List CatRow) : FrameWF (encodeCat rows) := by
  intro r hr
  simp only [encodeCat] at hr ⊢
  obtain ⟨t, ht, rfl⟩ := List.mem_map.mp hr
  simp [encodeRow]

theorem cellAt_encodeCat (rows : List CatRow) (r : CatRow) (hr : r ∈ rows)
    (hmes : ∀ t ∈ rows, 1 ≤ t.mes ∧ t.mes ≤ 12) (c : String) :
    cellAt (encodeCat rows).cols
        (encodeRow (uniqueSortedStrings (rows.map (·.opera)))
          (uniqueSortedStrings (rows.map (·.tipovuelo)))
          (uniqueSortedInts (rows.map (·.mes))) r) c
      = flightIndicator r c := by
  have hxop : r.opera ∈ uniqueSortedStrings (rows.map (·.opera)) :=
    (uniqueSortedStrings_mem _ _).mpr (List.mem_map_of_mem _ hr)
  have hxti : r.tipovuelo ∈ uniqueSortedStrings (rows.map (·.tipovuelo)) :=
    (uniqueSortedStrings_mem _ _).mpr (List.mem_map_of_mem _ hr)
  have hxme : r.mes ∈ uniqueSortedInts (rows.map (·.mes)) :=
    (uniqueSortedInts_mem _ _).mpr (List.mem_map_of_mem _ hr)
  have hbound : ∀ a ∈ uniqueSortedInts (rows.map (·.mes)), 1 ≤ a ∧ a ≤ 12 := by
    intro a ha
    rw [uniqueSortedInts_mem] at ha
    obtain ⟨t, ht, rfl⟩ := List.mem_map.mp ha
    exact hmes t ht
  have hA : cellAt ((uniqueSortedStrings (rows.map (·.opera))).map operaName)
      ((uniqueSortedStrings (rows.map (·.opera))).map fun v => if r.opera = v then 1 else 0) c
      = if c = operaName r.opera then 1 else 0 :=
    cellAt_block _ _ (fun a _ b _ h => operaName_inj a b h)
      (uniqueSortedStrings_nodup _) _ hxop c
  have hB : cellAt ((uniqueSortedStrings (rows.map (·.tipovuelo))).map tipoName)
      ((uniqueSortedStrings (rows.map (·.tipovuelo))).map
        fun v => if r.tipovuelo = v then 1 else 0) c
      = if c = tipoName r.tipovuelo then 1 else 0 :=
    cellAt_block _ _ (fun a _ b _ h => tipoName_inj a b h)
      (uniqueSortedStrings_nodup _) _ hxti c
  have hC : cellAt ((uniqueSortedInts (rows.map (·.mes))).map mesName)
      ((uniqueSortedInts (rows.map (·.mes))).map fun v => if r.mes = v then 1 else 0) c
      = if c = mesName r.mes then 1 else 0 :=
    cellAt_block _ _
      (fun a ha b hb h => mesName_inj_valid a b (hbound a ha).1 (hbound a ha).2
        (hbound b hb).1 (hbound b hb).2 h)
      (uniqueSortedInts_nodup _) _ hxme c
  simp only [encodeCat, encodeRow]
  rw [cellAt_append_cases _ _ _ _ _ (by simp), cellAt_append_cases _ _ _ _ _ (by simp)]
  simp only [flightIndicator]
  by_cases h1 : c = operaName r.opera
  · have hcA : c ∈ (uniqueSortedStrings (rows.map (·.opera))).map operaName :=
      h1.symm ▸ List.mem_map_of_mem operaName hxop
    rw [if_pos (List.mem_append.mpr (Or.inl hcA)), if_pos hcA, hA, if_pos h1, if_pos h1]
  · by_cases h2 : c = tipoName r.tipovuelo
    · have hcB : c ∈ (uniqueSortedStrings (rows.map (·.tipovuelo))).map tipoName :=
        h2.symm ▸ List.mem_map_of_mem tipoName hxti
      have hcA : c ∉ (uniqueSortedStrings (rows.map (·.opera))).map operaName := by
        intro hin
        obtain ⟨v, hv, hveq⟩ := List.mem_map.mp hin
        exact operaName_ne_tipoName v r.tipovuelo (hveq.trans h2)
      rw [if_pos (List.mem_append.mpr (Or.inr hcB)), if_neg hcA, hB, if_pos h2,
        if_neg h1, if_pos h2]
    · by_cases h3 : c = mesName r.mes
      · have hcAB : c ∉ (uniqueSortedStrings (rows.map (·.opera))).map operaName
            ++ (uniqueSortedStrings (rows.map (·.tipovuelo))).map tipoName := by
          intro hin
          rcases List.mem_append.mp hin with h | h
          · obtain ⟨v, hv, hveq⟩ := List.mem_map.mp h
            exact operaName_ne_mesName v r.mes (hveq.trans h3)
          · obtain ⟨v, hv, hveq⟩ := List.mem_map.mp h
            exact tipoName_ne_mesName v r.mes (hveq.trans h3)
        rw [if_neg hcAB, hC, if_pos h3, if_neg h1, if_neg h2]
      · rw [if_neg h1, if_neg h2, if_neg h3]
        by_cases hA2 : c ∈ (uniqueSortedStrings (rows.map (·.opera))).map operaName
        · rw [if_pos (List.mem_append.mpr (Or.inl hA2)), if_pos hA2, hA, if_neg h1]
        · by_cases hB2 : c ∈ (uniqueSortedStrings (rows.map (·.tipovuelo))).map tipoName
          · rw [if_pos (List.mem_append.mpr (Or.inr hB2)), if_neg hA2, hB, if_neg h2]
          · rw [if_neg (fun hab => (List.mem_append.mp hab).elim hA2 hB2), hC, if_neg h3]

theorem buildAligned_encodeCat_rows (fs : List CatRow) (names : List String)
    (hmes : ∀ t ∈ fs, 1 ≤ t.mes ∧ t.mes ≤ 12) :
    (buildAligned (encodeCat fs) names).rows
      = fs.map (fun r => names.map (flightIndicator r)) := by
  rw [buildAligned_rows _ _ (encodeCat_wf fs)]
  simp only [encodeCat, List.map_map]
  refine List.map_congr_left (fun r hrm => ?_)
  refine List.map_congr_left (fun c _ => ?_)
  exact cellAt_encodeCat fs r hrm hmes c

/-- C3: for pre-validated records and a row-wise classifier, the predict
endpoint returns, for a batch of N records, the per-record predictions in
input order, and for the single-object form of record `f` the same prediction
that the batch yields at `f`'s position — so batching and calling one by one
agree for every batch size, including one. -/
theorem c3_batch_single_consistent (clf : Classif) (clfRow : List Int → Int)
    (hclf : ∀ m, clf m = Except.ok (m.map clfRow))
    (names : List String) (hn : names ≠ [])
    (fs : List FlightData) (i : Nat) (f : FlightData) (hi : fs[i]? = some f)
    (hvalid : ∀ g ∈ fs, validFlight g = true) :
    predict_delay false (some clf) names (.batch fs)
      = .ok (.batchResp (fs.map (fun g => clfRow (names.map (flightIndicator g.toCat)))))
    ∧ predict_delay false (some clf) names (.single f)
      = .ok (.singleResp (clfRow (names.map (flightIndicator f.toCat)))
          f.OPERA f.MES f.TIPOVUELO)
    ∧ (fs.map (fun g => clfRow (names.map (flightIndicator g.toCat))))[i]?
      = some (clfRow (names.map (flightIndicator f.toCat))) := by
  have hf : f ∈ fs := List.getElem?_mem hi
  have hmesb : ∀ t ∈ fs.map FlightData.toCat, 1 ≤ t.mes ∧ t.mes ≤ 12 := by
    intro t ht
    obtain ⟨g, hg, rfl⟩ := List.mem_map.mp ht
    have hv := hvalid g hg
    unfold validFlight at hv
    simp only [Bool.and_eq_true, decide_eq_true_eq] at hv
    exact ⟨hv.1.2, hv.2⟩
  have hrows : (buildAligned (encodeCat (fs.map FlightData.toCat)) names).rows
      = fs.map (fun g => names.map (flightIndicator g.toCat)) := by
    rw [buildAligned_encodeCat_rows _ _ hmesb, List.map_map]
    rfl
  have hmess : ∀ t ∈ [f].map FlightData.toCat, 1 ≤ t.mes ∧ t.mes ≤ 12 := by
    intro t ht
    exact hmesb t (by
      obtain ⟨g, hg, rfl⟩ := List.mem_map.mp ht
      have : g = f := by simpa using hg
      subst this
      exact List.mem_map_of_mem _ hf)
  have hrowsS : (buildAligned (encodeCat ([f].map FlightData.toCat)) names).rows
      = [names.map (flightIndicator f.toCat)] := by
    rw [buildAligned_encodeCat_rows _ _ hmess]
    rfl
  refine ⟨?_, ?_, ?_⟩
  · have hrun := predict_delay_eq (some clf) names (.batch fs) (validateAll_ok _ hvalid)
    rw [hrun]
    simp only [Payload.toFlights]
    have hb : _build_features (some clf) names fs
        = .ok (buildAligned (encodeCat (fs.map FlightData.toCat)) names) := by
      unfold _build_features
      simp [hn]
    rw [hb]
    simp only []
    rw [hclf, hrows, List.map_map]
    rfl
  · have hrun := predict_delay_eq (some clf) names (.single f)
      (validateAll_ok _ (fun g hg => by
        have : g = f := by simpa [Payload.toFlights] using hg
        subst this
        exact hvalid g hf))
    rw [hrun]
    simp only [Payload.toFlights]
    have hb : _build_features (some clf) names [f]
        = .ok (buildAligned (encodeCat ([f].map FlightData.toCat)) names) := by
      unfold _build_features
      simp [hn]
    rw [hb]
    simp only []
    rw [hclf, hrowsS]
    rfl
  · rw [List.getElem?_map, hi]
    rfl

/-- Witness for C3: a two-flight batch predicts `[0, 1]` and the single call
on the second flight predicts `1` — the value at position 1 of the batch. -/
theorem c3_witness :
    predict_delay false (some (rowwise (fun row => row.headD 0)))
        ["OPERA_Sky Airline", "TIPOVUELO_N", "MES_1"]
        (.batch [⟨"Grupo LATAM", 1, "N"⟩, ⟨"Sky Airline", 1, "N"⟩])
      = .ok (.batchResp [0, 1])
    ∧ predict_delay false (some (rowwise (fun row => row.headD 0)))
        ["OPERA_Sky Airline", "TIPOVUELO_N", "MES_1"]
        (.single ⟨"Sky Airline", 1, "N"⟩)
      = .ok (.singleResp 1 "Sky Airline" 1 "N") := by
  have h := c3_batch_single_consistent (rowwise (fun row => row.headD 0))
    (fun row => row.headD 0) (fun m => rfl)
    ["OPERA_Sky Airline", "TIPOVUELO_N", "MES_1"] (by simp)
    [⟨"Grupo LATAM", 1, "N"⟩, ⟨"Sky Airline", 1, "N"⟩] 1 ⟨"Sky Airline", 1, "N"⟩
    (by decide) (by decide)
  exact ⟨h.1.trans (by rfl), h.2.1.trans (by rfl)⟩
